import Mathlib

/-! Hash-linked checkout ledger (`main.go`).

A shallow embedding of the chain core of `main.go`: the `Block` and
`BookCheckout` records, `generateHash`, `validateHash`, `CreateBlock`,
`AddBlock`, `newBlockchain`, `GenesisBlock` and `validBlock`, and of the
identifier that the handler `newBook` computes, followed by the properties of
the ledger checked against that code.

Modelling conventions.

* Go `string` values are Lean `String`s. Every string the program holds is
  valid UTF-8 (JSON-decoded fields, `time.Now().String()`, hex digests, rune
  conversions), and on such strings Go's byte-wise `==` is `String` equality.
* Go `int` is 64 bits wide; `Position` is an `Int` and `+` wraps (`intAdd`).
* A method with a pointer receiver that writes to its receiver returns the
  receiver's new value. `validateHash` and `validBlock` therefore return the
  boolean together with the block as it stands after the call.
* `time.Now().String()` is the clock reading `now`, an argument.
* `json.Marshal` is the argument `marshal`; `none` is the `err != nil` result.
  `jsonMarshal` is the encoder of `encoding/json` for `BookCheckout`.
* `crypto/sha256` and `encoding/hex` are the functions `sum256` and
  `hexEncodeToString` below; SHA-256 is written out from FIPS 180-4.
* `crypto/md5` is the function `md5Sum`, written out from RFC 1321.
-/

namespace GoBlockchain

/-! ## Library functions used by the chain -/

/-- UTF-8 encoding of one code point, as a list of bytes. -/
def utf8EncodeNat (n : Nat) : List Nat :=
  if n < 0x80 then [n]
  else if n < 0x800 then [0xC0 + n / 0x40, 0x80 + n % 0x40]
  else if n < 0x10000 then [0xE0 + n / 0x1000, 0x80 + n / 0x40 % 0x40, 0x80 + n % 0x40]
  else [0xF0 + n / 0x40000, 0x80 + n / 0x1000 % 0x40, 0x80 + n / 0x40 % 0x40, 0x80 + n % 0x40]

/-- The conversion `[]byte(s)`: the UTF-8 bytes of a string. -/
def toBytes (s : String) : List Nat :=
  s.data.flatMap (fun c => utf8EncodeNat c.toNat)

/-- The conversion `string(i)` of an integer to a string: the UTF-8 text of
the code point `i`, and the replacement character U+FFFD when `i` is not a
valid code point (negative, a surrogate, or above U+10FFFF). -/
def intToString (i : Int) : String :=
  if 0 ≤ i ∧ (i < 0xD800 ∨ (0xDFFF < i ∧ i < 0x110000)) then
    String.singleton (Char.ofNat i.toNat)
  else
    String.singleton (Char.ofNat 0xFFFD)

/-- Addition on Go's 64-bit `int`: two's complement wrap-around. -/
def intAdd (a b : Int) : Int :=
  (a + b + 2 ^ 63) % 2 ^ 64 - 2 ^ 63

/-- Trial-division primality test. -/
def isPrimeNat (n : Nat) : Bool :=
  2 ≤ n && (List.range n).all (fun d => d < 2 || n % d != 0)

/-- The first 64 primes, 2 to 311. -/
def sha256Primes : List Nat :=
  (List.range 312).filter isPrimeNat

/-- Integer `k`-th root of `n` (largest `r` with `r ^ k ≤ n`), found bit by bit
from bit 39 down; exact for roots below `2 ^ 40`. -/
def rootFloor (k n : Nat) : Nat :=
  (List.range 40).reverse.foldl (fun r i => if (r + 2 ^ i) ^ k ≤ n then r + 2 ^ i else r) 0

/-- Round constants of SHA-256 (FIPS 180-4, 4.2.2): the first 32 bits of the
fractional parts of the cube roots of the first 64 primes. -/
def sha256K : List Nat :=
  sha256Primes.map (fun q => rootFloor 3 (q * 2 ^ 96) % 2 ^ 32)

/-- The eight 32-bit words of a SHA-256 state. -/
structure Sha256State where
  a : Nat
  b : Nat
  c : Nat
  d : Nat
  e : Nat
  f : Nat
  g : Nat
  h : Nat
  deriving DecidableEq, Repr

/-- Initial hash value of SHA-256 (FIPS 180-4, 5.3.3): the first 32 bits of the
fractional parts of the square roots of the first 8 primes. -/
def sha256Init : Sha256State :=
  match (sha256Primes.take 8).map (fun q => rootFloor 2 (q * 2 ^ 64) % 2 ^ 32) with
  | [a, b, c, d, e, f, g, h] => ⟨a, b, c, d, e, f, g, h⟩
  | _ => ⟨0, 0, 0, 0, 0, 0, 0, 0⟩

/-- Reduction to a 32-bit word. -/
def w32 (x : Nat) : Nat := x % 2 ^ 32

/-- Rotate a 32-bit word right by `n` bits. -/
def rotr (x n : Nat) : Nat := w32 ((x >>> n) ||| (x <<< (32 - n)))

/-- Padding of a message of `len` bytes: `0x80`, zero bytes up to 56 modulo
64, then the bit length as a big-endian 64-bit integer. -/
def sha256Pad (len : Nat) : List Nat :=
  0x80 :: List.replicate ((119 - len % 64) % 64) 0 ++
    (List.range 8).map (fun i => (8 * len) >>> (8 * (7 - i)) % 256)

/-- Big-endian 32-bit words of a byte list (four bytes per word). -/
def beWords : List Nat → List Nat
  | b0 :: b1 :: b2 :: b3 :: rest => (b0 * 2 ^ 24 + b1 * 2 ^ 16 + b2 * 2 ^ 8 + b3) :: beWords rest
  | _ => []

/-- Extend the reversed message schedule by `n` further words. -/
def sha256Extend : Nat → List Nat → List Nat
  | 0, rev => rev
  | n + 1, rev =>
    let w2 := rev.getD 1 0
    let w7 := rev.getD 6 0
    let w15 := rev.getD 14 0
    let w16 := rev.getD 15 0
    let s0 := rotr w15 7 ^^^ rotr w15 18 ^^^ (w15 >>> 3)
    let s1 := rotr w2 17 ^^^ rotr w2 19 ^^^ (w2 >>> 10)
    sha256Extend n (w32 (w16 + s0 + w7 + s1) :: rev)

/-- One round of the SHA-256 compression function. -/
def sha256Round (s : Sha256State) (kw : Nat × Nat) : Sha256State :=
  let S1 := rotr s.e 6 ^^^ rotr s.e 11 ^^^ rotr s.e 25
  let ch := (s.e &&& s.f) ^^^ ((s.e ^^^ (2 ^ 32 - 1)) &&& s.g)
  let t1 := w32 (s.h + S1 + ch + kw.1 + kw.2)
  let S0 := rotr s.a 2 ^^^ rotr s.a 13 ^^^ rotr s.a 22
  let maj := (s.a &&& s.b) ^^^ (s.a &&& s.c) ^^^ (s.b &&& s.c)
  let t2 := w32 (S0 + maj)
  ⟨w32 (t1 + t2), s.a, s.b, s.c, w32 (s.d + t1), s.e, s.f, s.g⟩

/-- Compress one 64-byte chunk into the state. -/
def sha256Chunk (s : Sha256State) (chunk : List Nat) : Sha256State :=
  let w := (sha256Extend 48 (beWords chunk).reverse).reverse
  let t := (sha256K.zip w).foldl sha256Round s
  ⟨w32 (s.a + t.a), w32 (s.b + t.b), w32 (s.c + t.c), w32 (s.d + t.d),
   w32 (s.e + t.e), w32 (s.f + t.f), w32 (s.g + t.g), w32 (s.h + t.h)⟩

/-- Fold the compression function over `n` consecutive 64-byte chunks. -/
def sha256Chunks : Nat → Sha256State → List Nat → Sha256State
  | 0, s, _ => s
  | n + 1, s, bytes => sha256Chunks n (sha256Chunk s (bytes.take 64)) (bytes.drop 64)

/-- Big-endian bytes of a 32-bit word. -/
def wordBytes (x : Nat) : List Nat :=
  [x / 2 ^ 24 % 256, x / 2 ^ 16 % 256, x / 2 ^ 8 % 256, x % 256]

/-- SHA-256 of a byte list: the 32 bytes of the digest (`hash.Sum(nil)` after
`hash.Write`). -/
def sum256 (msg : List Nat) : List Nat :=
  let padded := msg ++ sha256Pad msg.length
  let s := sha256Chunks (padded.length / 64) sha256Init padded
  wordBytes s.a ++ wordBytes s.b ++ wordBytes s.c ++ wordBytes s.d ++
    wordBytes s.e ++ wordBytes s.f ++ wordBytes s.g ++ wordBytes s.h

/-- Lowercase hexadecimal digit of a value below 16. -/
def hexDigit (n : Nat) : Char :=
  "0123456789abcdef".data.getD n '0'

/-- The function `hex.EncodeToString`: two lowercase hex digits per byte. -/
def hexEncodeToString (bytes : List Nat) : String :=
  String.mk (bytes.flatMap (fun b => [hexDigit (b / 16 % 16), hexDigit (b % 16)]))

/-! ## Data model -/

/-- The payload of a block (`type BookCheckout struct`). -/
structure BookCheckout where
  BookID : String
  User : String
  CheckoutDate : String
  IsGenesis : Bool
  deriving DecidableEq, Repr

/-- A block of the chain (`type Block struct`). -/
structure Block where
  Position : Int
  Data : BookCheckout
  TimeStamp : String
  Hash : String
  PrevHash : String
  deriving DecidableEq, Repr

/-- The chain (`type Blockchain struct`); `blocks` lists the blocks that the
pointers of the Go slice refer to, in slice order. -/
structure Blockchain where
  blocks : List Block
  deriving DecidableEq, Repr

/-- The zero value `BookCheckout{}`. -/
def BookCheckout.zero : BookCheckout := ⟨"", "", "", false⟩

/-- The zero value `Block{}`. -/
def Block.zero : Block := ⟨0, BookCheckout.zero, "", "", ""⟩

/-! ## JSON encoding of the payload (`encoding/json`) -/

/-- One character of a JSON string as `json.Marshal` writes it: `"` and `\`
get a backslash, the control characters have their short or `\u00xx` form,
`<`, `>` and `&` are written `\u00xx`, U+2028 and U+2029 are written `\u202x`,
everything else is copied. -/
def jsonEscapeChar (c : Char) : String :=
  if c = '"' then "\\\""
  else if c = '\\' then "\\\\"
  else if c.toNat = 8 then "\\b"
  else if c.toNat = 12 then "\\f"
  else if c = '\n' then "\\n"
  else if c = '\r' then "\\r"
  else if c = '\t' then "\\t"
  else if c.toNat < 0x20 ∨ c = '<' ∨ c = '>' ∨ c = '&' then
    "\\u00" ++ String.mk [hexDigit (c.toNat / 16), hexDigit (c.toNat % 16)]
  else if c.toNat = 0x2028 ∨ c.toNat = 0x2029 then
    "\\u202" ++ String.singleton (hexDigit (c.toNat % 16))
  else String.singleton c

/-- A quoted JSON string. -/
def jsonString (s : String) : String :=
  "\"" ++ String.join (s.data.map jsonEscapeChar) ++ "\""

/-- The JSON object of a `BookCheckout`, fields in declaration order under
their `json:"..."` tags. -/
def encodeCheckout (d : BookCheckout) : String :=
  "\x7b\"book_id\":" ++ jsonString d.BookID ++
  ",\"user\":" ++ jsonString d.User ++
  ",\"checkout_date\":" ++ jsonString d.CheckoutDate ++
  ",\"is_genesis\":" ++ (if d.IsGenesis then "true" else "false") ++ "\x7d"

/-- The call `json.Marshal(b.Data)` on a `BookCheckout`: the encoded bytes, or
`none` for an error. A struct of strings and a bool always encodes. -/
def jsonMarshal (d : BookCheckout) : Option String :=
  some (encodeCheckout d)

/-! ## The chain core -/

/-- Method `generateHash`: on a marshalling error the block is left as it is;
otherwise `Hash` becomes the hex SHA-256 of
`string(Position) + TimeStamp + string(bytes) + PrevHash`. -/
def generateHash (marshal : BookCheckout → Option String) (b : Block) : Block :=
  match marshal b.Data with
  | none => b
  | some bytes =>
    let data := intToString b.Position ++ b.TimeStamp ++ bytes ++ b.PrevHash
    { b with Hash := hexEncodeToString (sum256 (toBytes data)) }

/-- Method `validateHash`: regenerates the receiver's hash, then compares it
with `hash`. Returns the boolean and the receiver after the call. -/
def validateHash (marshal : BookCheckout → Option String) (b : Block) (hash : String) :
    Bool × Block :=
  let b := generateHash marshal b
  if b.Hash != hash then (false, b) else (true, b)

/-- Function `CreateBlock`: a fresh `Block{}` whose `Position`, `PrevHash` and
`TimeStamp` are assigned in that order, then hashed. `checkoutItem` is not used
by the source, and `prevBlock` is only read. -/
def CreateBlock (marshal : BookCheckout → Option String) (now : String)
    (prevBlock : Block) (checkoutItem : BookCheckout) : Block :=
  let block := Block.zero
  let block := { block with Position := intAdd prevBlock.Position 1 }
  let block := { block with PrevHash := prevBlock.Hash }
  let block := { block with TimeStamp := now }
  generateHash marshal block

/-- Function `validBlock`: the three checks in source order. Returns the
boolean and `block` after the call (`validateHash` writes to it); `prevBlock`
is only read. -/
def validBlock (marshal : BookCheckout → Option String) (block prevBlock : Block) :
    Bool × Block :=
  if prevBlock.Hash != block.PrevHash then (false, block)
  else
    let r := validateHash marshal block block.Hash
    if !r.1 then (false, r.2)
    else if intAdd prevBlock.Position 1 != r.2.Position then (false, r.2)
    else (true, r.2)

/-- The guarded append of `AddBlock` (its `if validBlock(...) { append }`):
the candidate, as `validBlock` leaves it, goes to the end of the slice when the
check passes; otherwise the chain is returned as it was. -/
def appendIfValid (marshal : BookCheckout → Option String) (bc : Blockchain)
    (block prevBlock : Block) : Blockchain :=
  let r := validBlock marshal block prevBlock
  if r.1 then ⟨bc.blocks ++ [r.2]⟩ else bc

/-- Method `AddBlock`: `none` is the index-out-of-range panic of
`bc.blocks[len(bc.blocks)-1]` on an empty slice. -/
def AddBlock (marshal : BookCheckout → Option String) (now : String)
    (bc : Blockchain) (data : BookCheckout) : Option Blockchain :=
  match bc.blocks[bc.blocks.length - 1]? with
  | none => none
  | some prevBlock =>
    let block := CreateBlock marshal now prevBlock data
    some (appendIfValid marshal bc block prevBlock)

/-- Function `GenesisBlock`. -/
def GenesisBlock (marshal : BookCheckout → Option String) (now : String) : Block :=
  CreateBlock marshal now Block.zero { BookCheckout.zero with IsGenesis := true }

/-- Function `newBlockchain`. -/
def newBlockchain (marshal : BookCheckout → Option String) (now : String) : Blockchain :=
  ⟨[GenesisBlock marshal now]⟩

/-- The chains the program can hold: `newBlockchain` followed by any number of
`AddBlock` calls, each with its own payload and clock reading. -/
inductive Reachable (marshal : BookCheckout → Option String) : Blockchain → Prop
  | init (now : String) : Reachable marshal (newBlockchain marshal now)
  | add {bc bc2 : Blockchain} (now : String) (data : BookCheckout) :
      Reachable marshal bc → AddBlock marshal now bc data = some bc2 → Reachable marshal bc2

/-- The digest of a block recomputed from its `Position`, `TimeStamp`, `Data`
and `PrevHash`: what `generateHash` stores when the payload encodes. -/
def blockDigest (b : Block) : String :=
  hexEncodeToString (sum256 (toBytes
    (intToString b.Position ++ b.TimeStamp ++ encodeCheckout b.Data ++ b.PrevHash)))

/-- The string `data` that `generateHash` builds and feeds to SHA-256 when the
payload encodes: `string(Position) + TimeStamp + string(bytes) + PrevHash`. -/
def hashInput (b : Block) : String :=
  intToString b.Position ++ b.TimeStamp ++ encodeCheckout b.Data ++ b.PrevHash

/-- The lowercase hexadecimal digits. -/
def hexDigits : List Char := "0123456789abcdef".data

/-! ## Book registration (`newBook`) -/

/-- Per-round left-rotation amounts of MD5 (RFC 1321, 3.4). -/
def md5Shifts : List Nat :=
  (List.replicate 4 [7, 12, 17, 22]).flatten ++ (List.replicate 4 [5, 9, 14, 20]).flatten ++
    (List.replicate 4 [4, 11, 16, 23]).flatten ++ (List.replicate 4 [6, 10, 15, 21]).flatten

/-- The sine table of MD5 (RFC 1321, 3.4): entry `i` is the integer part of
`4294967296 * abs (sin (i + 1))`. -/
def md5K : List Nat :=
  [0xd76aa478, 0xe8c7b756, 0x242070db, 0xc1bdceee, 0xf57c0faf, 0x4787c62a, 0xa8304613, 0xfd469501,
   0x698098d8, 0x8b44f7af, 0xffff5bb1, 0x895cd7be, 0x6b901122, 0xfd987193, 0xa679438e, 0x49b40821,
   0xf61e2562, 0xc040b340, 0x265e5a51, 0xe9b6c7aa, 0xd62f105d, 0x02441453, 0xd8a1e681, 0xe7d3fbc8,
   0x21e1cde6, 0xc33707d6, 0xf4d50d87, 0x455a14ed, 0xa9e3e905, 0xfcefa3f8, 0x676f02d9, 0x8d2a4c8a,
   0xfffa3942, 0x8771f681, 0x6d9d6122, 0xfde5380c, 0xa4beea44, 0x4bdecfa9, 0xf6bb4b60, 0xbebfbc70,
   0x289b7ec6, 0xeaa127fa, 0xd4ef3085, 0x04881d05, 0xd9d4d039, 0xe6db99e5, 0x1fa27cf8, 0xc4ac5665,
   0xf4292244, 0x432aff97, 0xab9423a7, 0xfc93a039, 0x655b59c3, 0x8f0ccc92, 0xffeff47d, 0x85845dd1,
   0x6fa87e4f, 0xfe2ce6e0, 0xa3014314, 0x4e0811a1, 0xf7537e82, 0xbd3af235, 0x2ad7d2bb, 0xeb86d391]

/-- The four 32-bit words of an MD5 state. -/
structure Md5State where
  a : Nat
  b : Nat
  c : Nat
  d : Nat
  deriving DecidableEq, Repr

/-- Initial state of MD5. -/
def md5Init : Md5State := ⟨0x67452301, 0xefcdab89, 0x98badcfe, 0x10325476⟩

/-- Rotate a 32-bit word left by `n` bits. -/
def rotl (x n : Nat) : Nat := w32 ((x <<< n) ||| (x >>> (32 - n)))

/-- Padding of a message of `len` bytes for MD5: `0x80`, zero bytes up to 56
modulo 64, then the bit length as a little-endian 64-bit integer. -/
def md5Pad (len : Nat) : List Nat :=
  0x80 :: List.replicate ((119 - len % 64) % 64) 0 ++
    (List.range 8).map (fun i => (8 * len) >>> (8 * i) % 256)

/-- Little-endian 32-bit words of a byte list (four bytes per word). -/
def leWords : List Nat → List Nat
  | b0 :: b1 :: b2 :: b3 :: rest => (b0 + b1 * 2 ^ 8 + b2 * 2 ^ 16 + b3 * 2 ^ 24) :: leWords rest
  | _ => []

/-- Step `i` of the MD5 compression function on the message words `m`. -/
def md5Step (m : List Nat) (s : Md5State) (i : Nat) : Md5State :=
  let mask := 2 ^ 32 - 1
  let fg : Nat × Nat :=
    if i < 16 then ((s.b &&& s.c) ||| ((s.b ^^^ mask) &&& s.d), i)
    else if i < 32 then ((s.d &&& s.b) ||| ((s.d ^^^ mask) &&& s.c), (5 * i + 1) % 16)
    else if i < 48 then (s.b ^^^ s.c ^^^ s.d, (3 * i + 5) % 16)
    else (s.c ^^^ (s.b ||| (s.d ^^^ mask)), (7 * i) % 16)
  let f := w32 (fg.1 + s.a + md5K.getD i 0 + m.getD fg.2 0)
  ⟨s.d, w32 (s.b + rotl f (md5Shifts.getD i 0)), s.b, s.c⟩

/-- Compress one 64-byte chunk into the MD5 state. -/
def md5Chunk (s : Md5State) (chunk : List Nat) : Md5State :=
  let t := (List.range 64).foldl (md5Step (leWords chunk)) s
  ⟨w32 (s.a + t.a), w32 (s.b + t.b), w32 (s.c + t.c), w32 (s.d + t.d)⟩

/-- Fold the MD5 compression function over `n` consecutive 64-byte chunks. -/
def md5Chunks : Nat → Md5State → List Nat → Md5State
  | 0, s, _ => s
  | n + 1, s, bytes => md5Chunks n (md5Chunk s (bytes.take 64)) (bytes.drop 64)

/-- Little-endian bytes of a 32-bit word. -/
def wordBytesLE (x : Nat) : List Nat :=
  [x % 256, x / 2 ^ 8 % 256, x / 2 ^ 16 % 256, x / 2 ^ 24 % 256]

/-- MD5 of a byte list: the 16 bytes of the digest (`h.Sum(nil)` after
`io.WriteString(h, ...)` on `md5.New()`). -/
def md5Sum (msg : List Nat) : List Nat :=
  let padded := msg ++ md5Pad msg.length
  let s := md5Chunks (padded.length / 64) md5Init padded
  wordBytesLE s.a ++ wordBytesLE s.b ++ wordBytesLE s.c ++ wordBytesLE s.d

/-- A book record (`type Book struct`). -/
structure Book where
  ID : String
  Title : String
  Author : String
  PublishedDate : String
  ISBN : String
  deriving DecidableEq, Repr

/-- Handler `newBook`, from the decoded request body to the status code and
the record that is marshalled into the response. `decoded = none` is a body
that `Decode` rejects (status 500, no record). Otherwise `book.ID` is
overwritten with `fmt.Sprintf("%x", h.Sum(nil))`, the lowercase hex text of the
MD5 of `book.ISBN + book.PublishedDate`; `%x` on a byte slice writes two
lowercase hex digits per byte, as `hexEncodeToString` does. Writing to the
hash and marshalling a struct of strings do not fail. -/
def newBook (decoded : Option Book) : Nat × Option Book :=
  match decoded with
  | none => (500, none)
  | some book =>
    let book :=
      { book with
        ID := hexEncodeToString (md5Sum (toBytes (book.ISBN ++ book.PublishedDate))) }
    (200, some book)

/-! ## Sample inputs -/

/-- A clock reading, in the format of `time.Now().String()`. -/
def sampleNow0 : String := "2024-05-01 10:00:00.000000001 +0000 UTC m=+0.000012345"

/-- A later clock reading. -/
def sampleNow1 : String := "2024-05-01 10:00:05.000000001 +0000 UTC m=+5.000012345"

/-- A checkout as `writeBlock` decodes it from a request body. -/
def sampleCheckout : BookCheckout := ⟨"book-1", "alice", "2024-05-01", false⟩

/-- The chain right after `newBlockchain()`. -/
def sampleChain1 : Blockchain := newBlockchain jsonMarshal sampleNow0

/-- The chain after `newBlockchain()` and one `AddBlock(sampleCheckout)`. -/
def sampleChain2 : Blockchain :=
  ⟨[GenesisBlock jsonMarshal sampleNow0,
    CreateBlock jsonMarshal sampleNow1 (GenesisBlock jsonMarshal sampleNow0) sampleCheckout]⟩

/-- A block that has its fields but not yet its hash, as `CreateBlock` holds it
just before `generateHash`. -/
def staleBlock : Block := ⟨1, BookCheckout.zero, sampleNow0, "", ""⟩

/-- A hand-built block with `Position` 5 on top of the genesis block of
`sampleChain1`: `PrevHash` is the genesis hash and `Hash` is recomputed. -/
def handBuiltBlock : Block :=
  generateHash jsonMarshal
    ⟨5, sampleCheckout, sampleNow1, "", (GenesisBlock jsonMarshal sampleNow0).Hash⟩

/-- A block built on the genesis block of `sampleChain1` whose `PrevHash` was
then overwritten. -/
def tamperedBlock : Block :=
  { CreateBlock jsonMarshal sampleNow1 (GenesisBlock jsonMarshal sampleNow0) sampleCheckout with
    PrevHash := "00" }

/-- A marshalling function that reports an error on every payload. -/
def failingMarshal : BookCheckout → Option String := fun _ => none

/-- A block whose `Position` 55296 (`0xD800`) is not a valid code point. -/
def surrogateBlockA : Block := ⟨55296, BookCheckout.zero, sampleNow1, "", "00"⟩

/-- The block `surrogateBlockA` with `Position` 55297 in place of 55296. -/
def surrogateBlockB : Block := { surrogateBlockA with Position := 55297 }

/-- The block `staleBlock` with some other text in its `Hash` field. -/
def staleBlock2 : Block := { staleBlock with Hash := "ff" }

/-- A decoded book record that carries a client-supplied `ID`. -/
def sampleBook1 : Book :=
  ⟨"client-id", "Dune", "Frank Herbert", "1965-08-01", "978-0441172719"⟩

/-- Another record with the `ISBN` and `PublishedDate` of `sampleBook1`. -/
def sampleBook2 : Book :=
  ⟨"", "Dune (reissue)", "F. Herbert", "1965-08-01", "978-0441172719"⟩

/-! ## Basic facts about the chain core -/

theorem generateHash_Position (m : BookCheckout → Option String) (b : Block) :
    (generateHash m b).Position = b.Position := by
  unfold generateHash; cases m b.Data <;> rfl

theorem generateHash_Data (m : BookCheckout → Option String) (b : Block) :
    (generateHash m b).Data = b.Data := by
  unfold generateHash; cases m b.Data <;> rfl

theorem generateHash_TimeStamp (m : BookCheckout → Option String) (b : Block) :
    (generateHash m b).TimeStamp = b.TimeStamp := by
  unfold generateHash; cases m b.Data <;> rfl

theorem generateHash_PrevHash (m : BookCheckout → Option String) (b : Block) :
    (generateHash m b).PrevHash = b.PrevHash := by
  unfold generateHash; cases m b.Data <;> rfl

/-- Hashing a block a second time changes nothing. -/
theorem generateHash_idem (m : BookCheckout → Option String) (b : Block) :
    generateHash m (generateHash m b) = generateHash m b := by
  unfold generateHash
  cases h : m b.Data with
  | none => simp [h]
  | some bytes => simp [h]

/-- With the encoder of `encoding/json`, `generateHash` stores `blockDigest`. -/
theorem generateHash_jsonMarshal (b : Block) :
    generateHash jsonMarshal b = { b with Hash := blockDigest b } := rfl

theorem validateHash_snd (m : BookCheckout → Option String) (b : Block) (hash : String) :
    (validateHash m b hash).2 = generateHash m b := by
  unfold validateHash
  by_cases h : (generateHash m b).Hash = hash <;> simp [h]

theorem validateHash_fst (m : BookCheckout → Option String) (b : Block) (hash : String) :
    (validateHash m b hash).1 = true ↔ (generateHash m b).Hash = hash := by
  unfold validateHash
  by_cases h : (generateHash m b).Hash = hash <;> simp [h]

/-- The result of `validBlock` as one boolean expression. -/
theorem validBlock_fst (m : BookCheckout → Option String) (block prevBlock : Block) :
    (validBlock m block prevBlock).1 = true ↔
      prevBlock.Hash = block.PrevHash ∧ (generateHash m block).Hash = block.Hash ∧
        intAdd prevBlock.Position 1 = block.Position := by
  unfold validBlock
  by_cases h1 : prevBlock.Hash = block.PrevHash
  · by_cases h2 : (validateHash m block block.Hash).1 = true
    · have h2' := (validateHash_fst m block block.Hash).1 h2
      by_cases h3 : intAdd prevBlock.Position 1 = block.Position
      · simp [h1, h2, h2', h3, validateHash_snd, generateHash_Position]
      · simp [h1, h2, h2', h3, validateHash_snd, generateHash_Position]
    · have h2' : ¬ (generateHash m block).Hash = block.Hash :=
        fun h => h2 ((validateHash_fst m block block.Hash).2 h)
      simp [h1, h2, h2']
  · simp [h1]

/-- Whenever `validBlock` accepts, the candidate after the call is the
regenerated block. -/
theorem validBlock_snd_of_true (m : BookCheckout → Option String) (block prevBlock : Block)
    (h : (validBlock m block prevBlock).1 = true) :
    (validBlock m block prevBlock).2 = generateHash m block := by
  have h0 := (validBlock_fst m block prevBlock).1 h
  obtain ⟨h1, h2, h3⟩ := h0
  have h2' := (validateHash_fst m block block.Hash).2 h2
  unfold validBlock
  simp [h1, h2', h3, validateHash_snd, generateHash_Position]

theorem CreateBlock_Position (m : BookCheckout → Option String) (now : String) (prev : Block)
    (d : BookCheckout) : (CreateBlock m now prev d).Position = intAdd prev.Position 1 := by
  unfold CreateBlock; rw [generateHash_Position]

theorem CreateBlock_PrevHash (m : BookCheckout → Option String) (now : String) (prev : Block)
    (d : BookCheckout) : (CreateBlock m now prev d).PrevHash = prev.Hash := by
  unfold CreateBlock; rw [generateHash_PrevHash]

theorem CreateBlock_Data (m : BookCheckout → Option String) (now : String) (prev : Block)
    (d : BookCheckout) : (CreateBlock m now prev d).Data = BookCheckout.zero := by
  unfold CreateBlock; rw [generateHash_Data]; rfl

theorem CreateBlock_TimeStamp (m : BookCheckout → Option String) (now : String) (prev : Block)
    (d : BookCheckout) : (CreateBlock m now prev d).TimeStamp = now := by
  unfold CreateBlock; rw [generateHash_TimeStamp]

/-- A block built by `CreateBlock` is a fixed point of `generateHash`. -/
theorem CreateBlock_generateHash (m : BookCheckout → Option String) (now : String) (prev : Block)
    (d : BookCheckout) : generateHash m (CreateBlock m now prev d) = CreateBlock m now prev d := by
  unfold CreateBlock; exact generateHash_idem m _

/-- The candidate that `AddBlock` builds always passes `validBlock`, and comes
back from it as it went in. -/
theorem validBlock_CreateBlock (m : BookCheckout → Option String) (now : String) (prev : Block)
    (d : BookCheckout) :
    validBlock m (CreateBlock m now prev d) prev = (true, CreateBlock m now prev d) := by
  have h : (validBlock m (CreateBlock m now prev d) prev).1 = true := by
    rw [validBlock_fst, CreateBlock_generateHash]
    exact ⟨(CreateBlock_PrevHash m now prev d).symm, rfl, (CreateBlock_Position m now prev d).symm⟩
  have h2 := validBlock_snd_of_true m _ _ h
  rw [CreateBlock_generateHash] at h2
  exact Prod.ext h h2

/-- On a chain whose last block is `prev`, `AddBlock` appends the block that
`CreateBlock` builds on `prev`. -/
theorem AddBlock_eq (m : BookCheckout → Option String) (now : String) (bc : Blockchain)
    (d : BookCheckout) (prev : Block) (h : bc.blocks.getLast? = some prev) :
    AddBlock m now bc d = some ⟨bc.blocks ++ [CreateBlock m now prev d]⟩ := by
  rw [List.getLast?_eq_getElem?] at h
  unfold AddBlock appendIfValid
  simp [h, validBlock_CreateBlock]

/-- A reachable chain has a last block. -/
theorem Reachable.exists_last {m : BookCheckout → Option String} {bc : Blockchain}
    (h : Reachable m bc) : ∃ prev, bc.blocks.getLast? = some prev := by
  induction h with
  | init now => exact ⟨_, rfl⟩
  | add now data _ hstep ih =>
    obtain ⟨prev, hp⟩ := ih
    rw [AddBlock_eq m now _ data prev hp] at hstep
    cases hstep
    exact ⟨_, List.getLast?_concat _⟩

/-- The fresh sample chain is reachable. -/
theorem sampleChain1_reachable : Reachable jsonMarshal sampleChain1 :=
  Reachable.init sampleNow0

/-- The two-block sample chain is reachable. -/
theorem sampleChain2_reachable : Reachable jsonMarshal sampleChain2 :=
  Reachable.add sampleNow1 sampleCheckout (Reachable.init sampleNow0)
    (AddBlock_eq jsonMarshal sampleNow1 (newBlockchain jsonMarshal sampleNow0) sampleCheckout
      (GenesisBlock jsonMarshal sampleNow0) rfl)

/-! ## Appending -/

/-- C1, evaluated on the code: after `newBlockchain()` and
`AddBlock(sampleCheckout)` the last block does not hold `sampleCheckout`; its
`Data` is the zero value `BookCheckout{}`, because `CreateBlock` never assigns
`checkoutItem` to `block.Data`. -/
theorem addBlock_drops_payload :
    Option.map (fun bc => bc.blocks.getLast?.map Block.Data)
        (AddBlock jsonMarshal sampleNow1 sampleChain1 sampleCheckout)
      = some (some BookCheckout.zero) ∧
    sampleCheckout ≠ BookCheckout.zero := by
  constructor
  · rw [AddBlock_eq jsonMarshal sampleNow1 sampleChain1 sampleCheckout
      (GenesisBlock jsonMarshal sampleNow0) rfl]
    simp [CreateBlock_Data]
  · decide

/-- C2: on a reachable chain of length `n`, `AddBlock` returns a chain of
length `n + 1` whose last block has `PrevHash` equal to the `Hash` of the old
last block; the candidate built by `CreateBlock` passes `validBlock`, so the
append is never rejected. -/
theorem addBlock_grows (m : BookCheckout → Option String) (bc : Blockchain)
    (h : Reachable m bc) (now : String) (P : BookCheckout) :
    ∃ bc2 old new, AddBlock m now bc P = some bc2 ∧
      bc2.blocks.length = bc.blocks.length + 1 ∧
      bc.blocks.getLast? = some old ∧ bc2.blocks.getLast? = some new ∧
      new.PrevHash = old.Hash ∧
      (validBlock m (CreateBlock m now old P) old).1 = true := by
  obtain ⟨old, hold⟩ := h.exists_last
  refine ⟨_, old, CreateBlock m now old P, AddBlock_eq m now bc P old hold, ?_, hold, ?_, ?_, ?_⟩
  · simp
  · simp
  · exact CreateBlock_PrevHash m now old P
  · rw [validBlock_CreateBlock]

/-- The growth statement on the fresh sample chain. -/
theorem addBlock_grows_witness :
    Reachable jsonMarshal sampleChain1 ∧
    ∃ bc2 old new, AddBlock jsonMarshal sampleNow1 sampleChain1 sampleCheckout = some bc2 ∧
      bc2.blocks.length = sampleChain1.blocks.length + 1 ∧
      sampleChain1.blocks.getLast? = some old ∧ bc2.blocks.getLast? = some new ∧
      new.PrevHash = old.Hash ∧
      (validBlock jsonMarshal (CreateBlock jsonMarshal sampleNow1 old sampleCheckout) old).1
        = true :=
  ⟨Reachable.init sampleNow0,
   addBlock_grows jsonMarshal sampleChain1 (Reachable.init sampleNow0) sampleNow1 sampleCheckout⟩

/-! ## Invariants of reachable chains -/

/-- Every block of a reachable chain is a fixed point of `generateHash`. -/
theorem Reachable.generateHash_fixed {m : BookCheckout → Option String} {bc : Blockchain}
    (h : Reachable m bc) : ∀ b ∈ bc.blocks, generateHash m b = b := by
  induction h with
  | init now =>
    intro b hb
    simp only [newBlockchain, List.mem_singleton] at hb
    subst hb
    exact CreateBlock_generateHash m now _ _
  | add now data hbc hstep ih =>
    obtain ⟨prev, hp⟩ := hbc.exists_last
    rw [AddBlock_eq m now _ data prev hp] at hstep
    cases hstep
    intro b hb
    simp only [List.mem_append, List.mem_singleton] at hb
    rcases hb with hb | hb
    · exact ih b hb
    · subst hb
      exact CreateBlock_generateHash m now _ _

/-- Neighbours in a reachable chain are linked by hash and by position. -/
theorem Reachable.linked {m : BookCheckout → Option String} {bc : Blockchain}
    (h : Reachable m bc) : ∀ (i : Nat) (prev curr : Block),
      bc.blocks[i]? = some prev → bc.blocks[i + 1]? = some curr →
      curr.PrevHash = prev.Hash ∧ curr.Position = intAdd prev.Position 1 := by
  induction h with
  | init now =>
    intro i prev curr _ hc
    simp [newBlockchain] at hc
  | add now data hbc hstep ih =>
    obtain ⟨last, hl⟩ := hbc.exists_last
    rw [AddBlock_eq m now _ data last hl] at hstep
    cases hstep
    rename_i bc0
    intro i prev curr hp hc
    simp only at hp hc
    by_cases hi : i + 1 < bc0.blocks.length
    · rw [List.getElem?_append_left hi] at hc
      rw [List.getElem?_append_left (by omega)] at hp
      exact ih i prev curr hp hc
    · have hlen : i + 1 < (bc0.blocks ++ [CreateBlock m now last data]).length := by
        by_contra hcon
        rw [List.getElem?_eq_none (by omega)] at hc
        cases hc
      simp only [List.length_append, List.length_singleton] at hlen
      have hieq : i + 1 = bc0.blocks.length := by omega
      rw [List.getElem?_append_right (by omega)] at hc
      rw [List.getElem?_append_left (by omega)] at hp
      have hi0 : i + 1 - bc0.blocks.length = 0 := by omega
      rw [hi0] at hc
      simp only [List.getElem?_cons_zero, Option.some.injEq] at hc
      rw [List.getLast?_eq_getElem?] at hl
      have hii : bc0.blocks.length - 1 = i := by omega
      rw [hii, hp] at hl
      cases hl
      subst hc
      exact ⟨CreateBlock_PrevHash m now _ data, CreateBlock_Position m now _ data⟩

/-- The position stored at index `i` of a reachable chain is `i + 1`, in
64-bit arithmetic. -/
theorem Reachable.position_index {m : BookCheckout → Option String} {bc : Blockchain}
    (h : Reachable m bc) : ∀ (i : Nat) (b : Block),
      bc.blocks[i]? = some b → b.Position = intAdd (i : Int) 1 := by
  intro i
  induction i with
  | zero =>
    intro b hb
    have h0 : ∀ bc0, Reachable m bc0 → ∀ b0, bc0.blocks[0]? = some b0 → b0.Position = intAdd 0 1 := by
      intro bc0 hr
      induction hr with
      | init now =>
        intro b0 hb0
        simp only [newBlockchain, List.getElem?_cons_zero, Option.some.injEq] at hb0
        subst hb0
        exact CreateBlock_Position m now _ _
      | add now data hbc hstep ih =>
        obtain ⟨last, hl⟩ := hbc.exists_last
        rw [AddBlock_eq m now _ data last hl] at hstep
        cases hstep
        rename_i bc1
        intro b0 hb0
        have hne : 0 < bc1.blocks.length := by
          cases hbl : bc1.blocks with
          | nil => rw [hbl] at hl; cases hl
          | cons x xs => simp
        simp only at hb0
        rw [List.getElem?_append_left hne] at hb0
        exact ih b0 hb0
    exact h0 bc h b hb
  | succ n ihn =>
    intro b hb
    have hn : n < bc.blocks.length := by
      by_contra hcon
      rw [List.getElem?_eq_none (by omega)] at hb
      cases hb
    have hprev : bc.blocks[n]? = some bc.blocks[n] := List.getElem?_eq_getElem hn
    have hlink := h.linked n _ b hprev hb
    rw [hlink.2, ihn _ hprev]
    unfold intAdd
    push_cast
    omega

/-- C3: in a reachable chain every adjacent pair `(prev, curr)` has
`curr.PrevHash = prev.Hash`, `curr.Position = prev.Position + 1` (as Go `int`
addition, and as plain integer addition below index `2 ^ 63 - 2`) and
`curr.Hash` equal to the digest recomputed from the `Position`, `TimeStamp`,
`Data` and `PrevHash` of `curr`. -/
theorem chain_invariant (bc : Blockchain) (h : Reachable jsonMarshal bc)
    (i : Nat) (prev curr : Block)
    (hp : bc.blocks[i]? = some prev) (hc : bc.blocks[i + 1]? = some curr) :
    curr.PrevHash = prev.Hash ∧ curr.Position = intAdd prev.Position 1 ∧
      ((i : Int) + 2 < 2 ^ 63 → curr.Position = prev.Position + 1) ∧
      curr.Hash = blockDigest curr := by
  obtain ⟨h1, h2⟩ := h.linked i prev curr hp hc
  refine ⟨h1, h2, ?_, ?_⟩
  · intro hi
    have hpi := h.position_index i prev hp
    rw [h2, hpi]
    unfold intAdd
    omega
  · have hfix := h.generateHash_fixed curr (List.getElem?_mem hc)
    rw [generateHash_jsonMarshal] at hfix
    exact (congrArg Block.Hash hfix).symm

/-- The chain invariant on the first two blocks of the two-block sample chain. -/
theorem chain_invariant_witness :
    Reachable jsonMarshal sampleChain2 ∧
    sampleChain2.blocks[0]? = some (GenesisBlock jsonMarshal sampleNow0) ∧
    sampleChain2.blocks[0 + 1]? =
      some (CreateBlock jsonMarshal sampleNow1 (GenesisBlock jsonMarshal sampleNow0)
        sampleCheckout) ∧
    ((CreateBlock jsonMarshal sampleNow1 (GenesisBlock jsonMarshal sampleNow0)
        sampleCheckout).PrevHash = (GenesisBlock jsonMarshal sampleNow0).Hash ∧
      (CreateBlock jsonMarshal sampleNow1 (GenesisBlock jsonMarshal sampleNow0)
        sampleCheckout).Position = intAdd (GenesisBlock jsonMarshal sampleNow0).Position 1 ∧
      (((0 : Nat) : Int) + 2 < 2 ^ 63 →
        (CreateBlock jsonMarshal sampleNow1 (GenesisBlock jsonMarshal sampleNow0)
          sampleCheckout).Position = (GenesisBlock jsonMarshal sampleNow0).Position + 1) ∧
      (CreateBlock jsonMarshal sampleNow1 (GenesisBlock jsonMarshal sampleNow0)
        sampleCheckout).Hash =
        blockDigest (CreateBlock jsonMarshal sampleNow1 (GenesisBlock jsonMarshal sampleNow0)
          sampleCheckout)) :=
  ⟨sampleChain2_reachable, rfl, rfl,
   chain_invariant sampleChain2 sampleChain2_reachable 0 _ _ rfl rfl⟩

/-- C4, as stated, fails on the fresh chain: the block at index 0 has
`Position` 1, not 0. -/
theorem genesis_position_not_zero :
    (sampleChain1.blocks[0]?).map Block.Position = some 1 ∧
    (sampleChain1.blocks[0]?).map Block.Position ≠ some 0 := by
  have h : (sampleChain1.blocks[0]?).map Block.Position = some 1 := by
    simp only [sampleChain1, newBlockchain, GenesisBlock, List.getElem?_cons_zero,
      Option.map_some', CreateBlock_Position]
    decide
  rw [h]
  exact ⟨rfl, by decide⟩

/-- C4, amended: in a reachable chain the block stored at index `i` has
`Position` `i + 1`, computed in Go `int` arithmetic and equal to the plain
integer `i + 1` below `2 ^ 63`; so the genesis block has `Position` 1 and the
block appended to a chain of length `n` has `Position` `n + 1`. -/
theorem position_eq_index_succ (m : BookCheckout → Option String) (bc : Blockchain)
    (h : Reachable m bc) (i : Nat) (b : Block) (hb : bc.blocks[i]? = some b) :
    b.Position = intAdd (i : Int) 1 ∧ ((i : Int) + 1 < 2 ^ 63 → b.Position = (i : Int) + 1) := by
  have hpi := h.position_index i b hb
  refine ⟨hpi, fun hi => ?_⟩
  rw [hpi]
  unfold intAdd
  omega

/-- The position statement at index 1 of the two-block sample chain. -/
theorem position_eq_index_succ_witness :
    Reachable jsonMarshal sampleChain2 ∧
    sampleChain2.blocks[1]? =
      some (CreateBlock jsonMarshal sampleNow1 (GenesisBlock jsonMarshal sampleNow0)
        sampleCheckout) ∧
    ((CreateBlock jsonMarshal sampleNow1 (GenesisBlock jsonMarshal sampleNow0)
        sampleCheckout).Position = intAdd ((1 : Nat) : Int) 1 ∧
      ((((1 : Nat) : Int) + 1 < 2 ^ 63 →
        (CreateBlock jsonMarshal sampleNow1 (GenesisBlock jsonMarshal sampleNow0)
          sampleCheckout).Position = ((1 : Nat) : Int) + 1))) :=
  ⟨sampleChain2_reachable, rfl,
   position_eq_index_succ jsonMarshal sampleChain2 sampleChain2_reachable 1 _ rfl⟩

/-! ## Genesis -/

/-- C5: for every clock reading `newBlockchain` returns a chain of exactly one
block, whose `PrevHash` is the empty string and whose stored `Hash` passes
`validateHash`. -/
theorem newBlockchain_genesis (m : BookCheckout → Option String) (now : String) :
    ∃ g, (newBlockchain m now).blocks = [g] ∧ (newBlockchain m now).blocks.length = 1 ∧
      g.PrevHash = "" ∧ (validateHash m g g.Hash).1 = true := by
  refine ⟨GenesisBlock m now, rfl, rfl, ?_, ?_⟩
  · unfold GenesisBlock
    rw [CreateBlock_PrevHash]
    rfl
  · rw [validateHash_fst]
    unfold GenesisBlock
    rw [CreateBlock_generateHash]

/-- C6, evaluated on the code: the genesis block of a fresh chain has
`IsGenesis` false, because `CreateBlock` drops the payload
`BookCheckout{IsGenesis: true}` that `GenesisBlock` passes. -/
theorem genesis_flag_dropped :
    sampleChain1.blocks.map (fun b => b.Data.IsGenesis) = [false] ∧
    (GenesisBlock jsonMarshal sampleNow0).Data = BookCheckout.zero := by
  have h : (GenesisBlock jsonMarshal sampleNow0).Data = BookCheckout.zero :=
    CreateBlock_Data jsonMarshal sampleNow0 _ _
  refine ⟨?_, h⟩
  simp only [sampleChain1, newBlockchain, List.map_cons, List.map_nil, h]
  rfl

/-! ## Validation -/

/-- C7: `validBlock(curr, prev)` returns true exactly when
`prev.Hash == curr.PrevHash`, the stored `curr.Hash` equals the digest
recomputed from the `Position`, `TimeStamp`, `Data` and `PrevHash` of `curr`,
and `prev.Position + 1 == curr.Position` (Go `int` addition); a candidate whose
`PrevHash` differs from `prev.Hash` is rejected. -/
theorem validBlock_iff (curr prev : Block) :
    ((validBlock jsonMarshal curr prev).1 = true ↔
      prev.Hash = curr.PrevHash ∧ curr.Hash = blockDigest curr ∧
        intAdd prev.Position 1 = curr.Position) ∧
    (prev.Hash ≠ curr.PrevHash → (validBlock jsonMarshal curr prev).1 = false) := by
  have hiff : (validBlock jsonMarshal curr prev).1 = true ↔
      prev.Hash = curr.PrevHash ∧ curr.Hash = blockDigest curr ∧
        intAdd prev.Position 1 = curr.Position := by
    rw [validBlock_fst, generateHash_jsonMarshal]
    constructor
    · rintro ⟨h1, h2, h3⟩
      exact ⟨h1, h2.symm, h3⟩
    · rintro ⟨h1, h2, h3⟩
      exact ⟨h1, h2.symm, h3⟩
  refine ⟨hiff, fun hne => ?_⟩
  cases hv : (validBlock jsonMarshal curr prev).1 with
  | false => rfl
  | true => exact absurd (hiff.1 hv).1 hne

/-- The validation equivalence on a candidate with an overwritten `PrevHash`. -/
theorem validBlock_iff_witness :
    ((validBlock jsonMarshal tamperedBlock (GenesisBlock jsonMarshal sampleNow0)).1 = true ↔
      (GenesisBlock jsonMarshal sampleNow0).Hash = tamperedBlock.PrevHash ∧
        tamperedBlock.Hash = blockDigest tamperedBlock ∧
        intAdd (GenesisBlock jsonMarshal sampleNow0).Position 1 = tamperedBlock.Position) ∧
    ((GenesisBlock jsonMarshal sampleNow0).Hash ≠ tamperedBlock.PrevHash →
      (validBlock jsonMarshal tamperedBlock (GenesisBlock jsonMarshal sampleNow0)).1 = false) :=
  validBlock_iff tamperedBlock (GenesisBlock jsonMarshal sampleNow0)

/-- C8: when `curr.Position != prev.Position + 1` (Go `int` addition),
`validBlock(curr, prev)` returns false whatever the hashes of `curr` are, and
the append guarded by it returns every chain as it was. -/
theorem validBlock_rejects_position (m : BookCheckout → Option String) (prev curr : Block)
    (h : curr.Position ≠ intAdd prev.Position 1) :
    (validBlock m curr prev).1 = false ∧
      ∀ bc : Blockchain, appendIfValid m bc curr prev = bc ∧
        (appendIfValid m bc curr prev).blocks.length = bc.blocks.length := by
  have hv : (validBlock m curr prev).1 = false := by
    cases hv : (validBlock m curr prev).1 with
    | false => rfl
    | true => exact absurd ((validBlock_fst m curr prev).1 hv).2.2.symm h
  refine ⟨hv, fun bc => ?_⟩
  have happ : appendIfValid m bc curr prev = bc := by
    unfold appendIfValid
    simp [hv]
  exact ⟨happ, by rw [happ]⟩

set_option maxRecDepth 100000 in
/-- The ordering check on the fresh one-block chain: a hand-built block with
`Position` 5, the genesis hash as `PrevHash` and a recomputed `Hash` is
rejected, and the guarded append leaves the chain at length 1. -/
theorem validBlock_rejects_position_witness :
    handBuiltBlock.Position ≠ intAdd (GenesisBlock jsonMarshal sampleNow0).Position 1 ∧
    handBuiltBlock.Position = 5 ∧
    handBuiltBlock.PrevHash = (GenesisBlock jsonMarshal sampleNow0).Hash ∧
    handBuiltBlock.Hash = blockDigest handBuiltBlock ∧
    sampleChain1.blocks.length = 1 ∧
    ((validBlock jsonMarshal handBuiltBlock (GenesisBlock jsonMarshal sampleNow0)).1 = false ∧
      ∀ bc : Blockchain,
        appendIfValid jsonMarshal bc handBuiltBlock (GenesisBlock jsonMarshal sampleNow0) = bc ∧
        (appendIfValid jsonMarshal bc handBuiltBlock
          (GenesisBlock jsonMarshal sampleNow0)).blocks.length = bc.blocks.length) :=
  ⟨by decide, rfl, rfl, rfl, rfl,
   validBlock_rejects_position jsonMarshal (GenesisBlock jsonMarshal sampleNow0) handBuiltBlock
     (by decide)⟩

set_option maxRecDepth 100000 in
/-- C9, as stated, fails on `staleBlock`: its `Hash` is empty before
`validateHash` and is the 64-digit digest after it. -/
theorem validateHash_overwrites_hash :
    staleBlock.Hash = "" ∧
    (validateHash jsonMarshal staleBlock "").2.Hash =
      "2a569e580adaf1e8f3dafca4f09ad77096906d6ad2eb5556e67b4800b19a68f7" ∧
    (validateHash jsonMarshal staleBlock "").2.Hash ≠ staleBlock.Hash := by
  decide

/-- C9, amended: after `b.validateHash(h)` the `Hash` field holds the digest
recomputed from the `Position`, `TimeStamp`, `Data` and `PrevHash` of `b`; it
equals the `Hash` field before the call exactly when the stored `Hash` was
already that digest, and the other four fields are never changed. -/
theorem validateHash_hash_unchanged_iff (b : Block) (hash : String) :
    (validateHash jsonMarshal b hash).2.Hash = blockDigest b ∧
    ((validateHash jsonMarshal b hash).2.Hash = b.Hash ↔ b.Hash = blockDigest b) ∧
    (validateHash jsonMarshal b hash).2.Position = b.Position ∧
    (validateHash jsonMarshal b hash).2.Data = b.Data ∧
    (validateHash jsonMarshal b hash).2.TimeStamp = b.TimeStamp ∧
    (validateHash jsonMarshal b hash).2.PrevHash = b.PrevHash := by
  rw [validateHash_snd, generateHash_jsonMarshal]
  exact ⟨rfl, ⟨fun h => h.symm, fun h => h.symm⟩, rfl, rfl, rfl, rfl⟩

/-! ## Append-only -/

/-- C10: on a reachable chain `AddBlock` returns a chain that starts with the
old blocks, each unchanged and at its old index; nothing is written to the
predecessor while the candidate is built and validated. -/
theorem addBlock_append_only (m : BookCheckout → Option String) (bc : Blockchain)
    (h : Reachable m bc) (now : String) (P : BookCheckout) :
    ∃ bc2, AddBlock m now bc P = some bc2 ∧ bc.blocks <+: bc2.blocks ∧
      bc2.blocks.take bc.blocks.length = bc.blocks ∧
      ∀ (i : Nat) (b : Block), bc.blocks[i]? = some b → bc2.blocks[i]? = some b := by
  obtain ⟨old, hold⟩ := h.exists_last
  refine ⟨_, AddBlock_eq m now bc P old hold, ⟨[CreateBlock m now old P], rfl⟩, ?_, ?_⟩
  · simp
  · intro i b hb
    have hi : i < bc.blocks.length := by
      by_contra hcon
      rw [List.getElem?_eq_none (by omega)] at hb
      cases hb
    simp only
    rw [List.getElem?_append_left hi]
    exact hb

/-- The append-only statement on the two-block sample chain. -/
theorem addBlock_append_only_witness :
    Reachable jsonMarshal sampleChain2 ∧
    ∃ bc2, AddBlock jsonMarshal sampleNow1 sampleChain2 sampleCheckout = some bc2 ∧
      sampleChain2.blocks <+: bc2.blocks ∧
      bc2.blocks.take sampleChain2.blocks.length = sampleChain2.blocks ∧
      ∀ (i : Nat) (b : Block), sampleChain2.blocks[i]? = some b → bc2.blocks[i]? = some b :=
  ⟨sampleChain2_reachable,
   addBlock_append_only jsonMarshal sampleChain2 sampleChain2_reachable sampleNow1 sampleCheckout⟩

/-! ## Digests and their text -/

theorem blockDigest_eq (b : Block) :
    blockDigest b = hexEncodeToString (sum256 (toBytes (hashInput b))) := rfl

theorem toBytes_append (s t : String) : toBytes (s ++ t) = toBytes s ++ toBytes t := by
  simp [toBytes]

/-- SHA-256 returns 32 bytes. -/
theorem sum256_length (msg : List Nat) : (sum256 msg).length = 32 := by
  simp [sum256, wordBytes]

/-- MD5 returns 16 bytes. -/
theorem md5Sum_length (msg : List Nat) : (md5Sum msg).length = 16 := by
  simp [md5Sum, wordBytesLE]

/-- A hex digit of a value below 16 is one of `0`..`9`, `a`..`f`. -/
theorem hexDigit_mem (n : Nat) (h : n < 16) : hexDigit n ∈ hexDigits := by
  interval_cases n <;> decide

/-- The hex text of `n` bytes has `2 * n` characters. -/
theorem hexEncodeToString_length (bytes : List Nat) :
    (hexEncodeToString bytes).length = 2 * bytes.length := by
  unfold hexEncodeToString
  rw [String.length_mk]
  induction bytes with
  | nil => rfl
  | cons b rest ih =>
    simp only [List.flatMap_cons, List.length_append, List.length_cons, List.length_nil, ih]
    omega

/-- The hex text consists of lowercase hex digits only. -/
theorem hexEncodeToString_chars (bytes : List Nat) :
    ∀ c ∈ (hexEncodeToString bytes).data, c ∈ hexDigits := by
  intro c hc
  unfold hexEncodeToString at hc
  simp only [List.mem_flatMap, List.mem_cons, List.mem_singleton, List.not_mem_nil,
    or_false] at hc
  obtain ⟨b, _, hb⟩ := hc
  rcases hb with hb | hb
  · rw [hb]; exact hexDigit_mem _ (Nat.mod_lt _ (by decide))
  · rw [hb]; exact hexDigit_mem _ (Nat.mod_lt _ (by decide))

/-- The conversion `string(i)` of `0 ≤ i < 128` is the single byte `i`. -/
theorem toBytes_intToString_ascii (p : Int) (h0 : 0 ≤ p) (h1 : p < 128) :
    toBytes (intToString p) = [p.toNat] := by
  obtain ⟨n, rfl⟩ := Int.eq_ofNat_of_zero_le h0
  have hn : n < 128 := by omega
  simp only [Int.toNat_ofNat]
  interval_cases n <;> decide

/-! ## The last-block lookup -/

/-- C11: a reachable chain holds at least one block, so the lookup
`bc.blocks[len(bc.blocks)-1]` of `AddBlock` finds a block and `AddBlock` never
takes the index-out-of-range branch. -/
theorem reachable_nonempty (m : BookCheckout → Option String) (bc : Blockchain)
    (h : Reachable m bc) :
    1 ≤ bc.blocks.length ∧ bc.blocks.length - 1 < bc.blocks.length ∧
      (∃ prev, bc.blocks[bc.blocks.length - 1]? = some prev) ∧
      ∀ (now : String) (data : BookCheckout), AddBlock m now bc data ≠ none := by
  obtain ⟨prev, hp⟩ := h.exists_last
  have hne : 1 ≤ bc.blocks.length := by
    cases hbl : bc.blocks with
    | nil => rw [hbl] at hp; cases hp
    | cons x xs => simp
  refine ⟨hne, by omega, ⟨prev, ?_⟩, fun now data => ?_⟩
  · rw [← List.getLast?_eq_getElem?]; exact hp
  · rw [AddBlock_eq m now bc data prev hp]
    exact fun hcon => Option.noConfusion hcon

/-- The last-block lookup on the two-block sample chain. -/
theorem reachable_nonempty_witness :
    Reachable jsonMarshal sampleChain2 ∧
    (1 ≤ sampleChain2.blocks.length ∧
      sampleChain2.blocks.length - 1 < sampleChain2.blocks.length ∧
      (∃ prev, sampleChain2.blocks[sampleChain2.blocks.length - 1]? = some prev) ∧
      ∀ (now : String) (data : BookCheckout),
        AddBlock jsonMarshal now sampleChain2 data ≠ none) :=
  ⟨sampleChain2_reachable, reachable_nonempty jsonMarshal sampleChain2 sampleChain2_reachable⟩

/-! ## The digest input -/

/-- C12, evaluated on the code: `surrogateBlockA` and `surrogateBlockB` differ
in `Position` only (55296 and 55297), yet `generateHash` feeds the same string
to SHA-256 for both and stores the same `Hash`, because `string(b.Position)`
is the replacement character for every integer that is not a valid code
point. -/
theorem position_change_same_input :
    surrogateBlockA.Position ≠ surrogateBlockB.Position ∧
    surrogateBlockA.TimeStamp = surrogateBlockB.TimeStamp ∧
    surrogateBlockA.Data = surrogateBlockB.Data ∧
    surrogateBlockA.PrevHash = surrogateBlockB.PrevHash ∧
    hashInput surrogateBlockA = hashInput surrogateBlockB ∧
    toBytes (hashInput surrogateBlockA) = toBytes (hashInput surrogateBlockB) ∧
    (generateHash jsonMarshal surrogateBlockA).Hash =
      (generateHash jsonMarshal surrogateBlockB).Hash := by
  have hin : hashInput surrogateBlockA = hashInput surrogateBlockB := by decide
  refine ⟨by decide, rfl, rfl, rfl, hin, by rw [hin], ?_⟩
  rw [generateHash_jsonMarshal, generateHash_jsonMarshal]
  show blockDigest surrogateBlockA = blockDigest surrogateBlockB
  rw [blockDigest_eq, blockDigest_eq, hin]

/-- C13: the `Hash` that `generateHash` stores depends on `Position`,
`TimeStamp`, `Data` and `PrevHash` only: two blocks that agree on these four
fields have equal `Hash` fields after `generateHash`, whatever their `Hash`
fields held before, and that `Hash` is the digest of the four fields. The same
holds for every marshalling function that succeeds on the payload. -/
theorem generateHash_deterministic (b1 b2 : Block)
    (hp : b1.Position = b2.Position) (ht : b1.TimeStamp = b2.TimeStamp)
    (hd : b1.Data = b2.Data) (hh : b1.PrevHash = b2.PrevHash) :
    (generateHash jsonMarshal b1).Hash = (generateHash jsonMarshal b2).Hash ∧
    (generateHash jsonMarshal b1).Hash = blockDigest b1 ∧
    ∀ m : BookCheckout → Option String, m b1.Data ≠ none →
      (generateHash m b1).Hash = (generateHash m b2).Hash := by
  refine ⟨?_, rfl, fun m hm => ?_⟩
  · rw [generateHash_jsonMarshal, generateHash_jsonMarshal]
    show blockDigest b1 = blockDigest b2
    unfold blockDigest
    rw [hp, ht, hd, hh]
  · unfold generateHash
    rw [← hd]
    cases hmd : m b1.Data with
    | none => exact absurd hmd hm
    | some bytes => simp only [hp, ht, hh]

/-- Determinism on two blocks that differ in their stored `Hash` only. -/
theorem generateHash_deterministic_witness :
    staleBlock.Hash ≠ staleBlock2.Hash ∧
    ((generateHash jsonMarshal staleBlock).Hash = (generateHash jsonMarshal staleBlock2).Hash ∧
      (generateHash jsonMarshal staleBlock).Hash = blockDigest staleBlock ∧
      ∀ m : BookCheckout → Option String, m staleBlock.Data ≠ none →
        (generateHash m staleBlock).Hash = (generateHash m staleBlock2).Hash) :=
  ⟨by decide, generateHash_deterministic staleBlock staleBlock2 rfl rfl rfl rfl⟩

/-! ## Book identifiers -/

/-- C14: the `ID` that `newBook` computes depends on `ISBN` and
`PublishedDate` only: two decoded records with the same `ISBN` and the same
`PublishedDate` get the same `ID`, whatever their `Title`, `Author` or incoming
`ID`; that `ID` is the hex text of the 16-byte MD5 digest of
`ISBN + PublishedDate`, 32 characters long, all lowercase hex digits. -/
theorem newBook_id (b1 b2 : Book) (hi : b1.ISBN = b2.ISBN)
    (hd : b1.PublishedDate = b2.PublishedDate) :
    ∃ r1 r2, newBook (some b1) = (200, some r1) ∧ newBook (some b2) = (200, some r2) ∧
      r1.ID = r2.ID ∧
      r1.ID = hexEncodeToString (md5Sum (toBytes (b1.ISBN ++ b1.PublishedDate))) ∧
      (md5Sum (toBytes (b1.ISBN ++ b1.PublishedDate))).length = 16 ∧
      r1.ID.length = 32 ∧ ∀ c ∈ r1.ID.data, c ∈ hexDigits := by
  refine ⟨_, _, rfl, rfl, ?_, rfl, md5Sum_length _, ?_, ?_⟩
  · simp only [hi, hd]
  · simp only [hexEncodeToString_length, md5Sum_length]
  · exact hexEncodeToString_chars _

set_option maxRecDepth 100000 in
/-- Two records that share `ISBN` and `PublishedDate` and differ in `ID`,
`Title` and `Author`; the identifier of the first is evaluated. -/
theorem newBook_id_witness :
    sampleBook1.ID ≠ sampleBook2.ID ∧ sampleBook1.Title ≠ sampleBook2.Title ∧
    (newBook (some sampleBook1)).2.map Book.ID = some "5c4d6023cc5a8dc0de83e48c85102c6a" ∧
    ∃ r1 r2, newBook (some sampleBook1) = (200, some r1) ∧
      newBook (some sampleBook2) = (200, some r2) ∧
      r1.ID = r2.ID ∧
      r1.ID = hexEncodeToString
        (md5Sum (toBytes (sampleBook1.ISBN ++ sampleBook1.PublishedDate))) ∧
      (md5Sum (toBytes (sampleBook1.ISBN ++ sampleBook1.PublishedDate))).length = 16 ∧
      r1.ID.length = 32 ∧ ∀ c ∈ r1.ID.data, c ∈ hexDigits :=
  ⟨by decide, by decide, by decide, newBook_id sampleBook1 sampleBook2 rfl rfl⟩

/-! ## Serialization failure -/

/-- C15, as stated, fails with a marshalling function that reports an error:
the candidate that `CreateBlock` builds on the genesis block has an empty
`Hash`, `validBlock` returns true for it, and `AddBlock` appends it. -/
theorem failed_marshal_block_appended :
    failingMarshal
      (CreateBlock failingMarshal sampleNow1 (GenesisBlock failingMarshal sampleNow0)
        sampleCheckout).Data = none ∧
    (CreateBlock failingMarshal sampleNow1 (GenesisBlock failingMarshal sampleNow0)
      sampleCheckout).Hash = "" ∧
    (validBlock failingMarshal
      (CreateBlock failingMarshal sampleNow1 (GenesisBlock failingMarshal sampleNow0)
        sampleCheckout)
      (GenesisBlock failingMarshal sampleNow0)).1 = true ∧
    (AddBlock failingMarshal sampleNow1 (newBlockchain failingMarshal sampleNow0)
      sampleCheckout).map (fun bc => bc.blocks.length) = some 2 := by
  decide

/-- C15, amended: when serialization of the payload fails, `generateHash`
leaves the `Hash` field as it was, which is the empty string for a candidate
built by `CreateBlock`; `validateHash` then compares that unchanged `Hash`
with itself, `validBlock` returns true for the candidate, and `AddBlock`
appends it. -/
theorem failed_marshal_candidate (m : BookCheckout → Option String) (now : String)
    (prev : Block) (P : BookCheckout)
    (hfail : m (CreateBlock m now prev P).Data = none) :
    (CreateBlock m now prev P).Hash = "" ∧
    (validateHash m (CreateBlock m now prev P) (CreateBlock m now prev P).Hash).1 = true ∧
    validBlock m (CreateBlock m now prev P) prev = (true, CreateBlock m now prev P) ∧
    ∀ bc : Blockchain, bc.blocks.getLast? = some prev →
      AddBlock m now bc P = some ⟨bc.blocks ++ [CreateBlock m now prev P]⟩ := by
  refine ⟨?_, ?_, validBlock_CreateBlock m now prev P,
    fun bc hl => AddBlock_eq m now bc P prev hl⟩
  · rw [CreateBlock_Data] at hfail
    unfold CreateBlock generateHash
    simp only
    have hz : m BookCheckout.zero = none := hfail
    have hz2 : m Block.zero.Data = none := hz
    rw [hz2]
    rfl
  · rw [validateHash_fst, CreateBlock_generateHash]

/-- A failing serialization on the fresh chain of `failingMarshal`. -/
theorem failed_marshal_candidate_witness :
    failingMarshal
      (CreateBlock failingMarshal sampleNow1 (GenesisBlock failingMarshal sampleNow0)
        sampleCheckout).Data = none ∧
    ((CreateBlock failingMarshal sampleNow1 (GenesisBlock failingMarshal sampleNow0)
        sampleCheckout).Hash = "" ∧
      (validateHash failingMarshal
        (CreateBlock failingMarshal sampleNow1 (GenesisBlock failingMarshal sampleNow0)
          sampleCheckout)
        (CreateBlock failingMarshal sampleNow1 (GenesisBlock failingMarshal sampleNow0)
          sampleCheckout).Hash).1 = true ∧
      validBlock failingMarshal
        (CreateBlock failingMarshal sampleNow1 (GenesisBlock failingMarshal sampleNow0)
          sampleCheckout)
        (GenesisBlock failingMarshal sampleNow0) =
        (true, CreateBlock failingMarshal sampleNow1 (GenesisBlock failingMarshal sampleNow0)
          sampleCheckout) ∧
      ∀ bc : Blockchain, bc.blocks.getLast? = some (GenesisBlock failingMarshal sampleNow0) →
        AddBlock failingMarshal sampleNow1 bc sampleCheckout =
          some ⟨bc.blocks ++ [CreateBlock failingMarshal sampleNow1
            (GenesisBlock failingMarshal sampleNow0) sampleCheckout]⟩) :=
  ⟨rfl, failed_marshal_candidate failingMarshal sampleNow1
    (GenesisBlock failingMarshal sampleNow0) sampleCheckout rfl⟩

/-! ## The position in the digest input -/

/-- C16: for a block with `0 ≤ Position < 128`, `string(b.Position)` is the one
byte of value `Position`, and the bytes that `generateHash` feeds to SHA-256
are that byte followed by the bytes of `TimeStamp`, the encoded payload and
`PrevHash`; the decimal digits of `Position` do not occur. -/
theorem position_raw_byte (b : Block) (h0 : 0 ≤ b.Position) (h1 : b.Position < 128) :
    toBytes (intToString b.Position) = [b.Position.toNat] ∧
    toBytes (hashInput b) =
      b.Position.toNat :: toBytes (b.TimeStamp ++ encodeCheckout b.Data ++ b.PrevHash) ∧
    (generateHash jsonMarshal b).Hash =
      hexEncodeToString (sum256
        (b.Position.toNat :: toBytes (b.TimeStamp ++ encodeCheckout b.Data ++ b.PrevHash))) := by
  have hp := toBytes_intToString_ascii b.Position h0 h1
  have hin : toBytes (hashInput b) =
      b.Position.toNat :: toBytes (b.TimeStamp ++ encodeCheckout b.Data ++ b.PrevHash) := by
    unfold hashInput
    rw [toBytes_append, toBytes_append, toBytes_append, hp, toBytes_append, toBytes_append]
    simp
  refine ⟨hp, hin, ?_⟩
  rw [generateHash_jsonMarshal]
  show blockDigest b = _
  rw [blockDigest_eq, hin]

/-- Position 1 contributes the byte `0x01`, not the character `'1'` (`0x31`). -/
theorem position_raw_byte_witness :
    (0 : Int) ≤ staleBlock.Position ∧ staleBlock.Position < 128 ∧
    staleBlock.Position = 1 ∧ toBytes "1" = [0x31] ∧
    (toBytes (intToString staleBlock.Position) = [1] ∧
      toBytes (hashInput staleBlock) =
        1 :: toBytes (staleBlock.TimeStamp ++ encodeCheckout staleBlock.Data ++
          staleBlock.PrevHash) ∧
      (generateHash jsonMarshal staleBlock).Hash =
        hexEncodeToString (sum256
          (1 :: toBytes (staleBlock.TimeStamp ++ encodeCheckout staleBlock.Data ++
            staleBlock.PrevHash)))) :=
  ⟨by decide, by decide, rfl, by decide,
   position_raw_byte staleBlock (by decide) (by decide)⟩

/-! ## The shape of the stored hash -/

/-- C17: whatever the predecessor, the payload and the clock reading, the
`Hash` of the block that `CreateBlock` returns is the hex text of the 32-byte
SHA-256 digest: exactly 64 characters, each a lowercase hex digit. -/
theorem createBlock_hash_hex (now : String) (prev : Block) (P : BookCheckout) :
    (CreateBlock jsonMarshal now prev P).Hash.length = 64 ∧
    (∀ c ∈ (CreateBlock jsonMarshal now prev P).Hash.data, c ∈ hexDigits) ∧
    ∃ digest : List Nat, digest.length = 32 ∧
      (CreateBlock jsonMarshal now prev P).Hash = hexEncodeToString digest := by
  have h : (CreateBlock jsonMarshal now prev P).Hash =
      blockDigest (CreateBlock jsonMarshal now prev P) := by
    have hfix := CreateBlock_generateHash jsonMarshal now prev P
    rw [generateHash_jsonMarshal] at hfix
    exact (congrArg Block.Hash hfix).symm
  rw [h, blockDigest_eq]
  refine ⟨?_, hexEncodeToString_chars _, _, sum256_length _, rfl⟩
  rw [hexEncodeToString_length, sum256_length]

/-! ## Repeated verification -/

/-- C18: a second `b.validateHash(h)` right after the first returns the same
boolean and leaves the block as the first call left it; with the encoder of
`encoding/json` the `Hash` after the first call is already the digest of the
`Position`, `TimeStamp`, `Data` and `PrevHash` of `b`. -/
theorem validateHash_idempotent (m : BookCheckout → Option String) (b : Block)
    (hash : String) :
    (validateHash m (validateHash m b hash).2 hash).1 = (validateHash m b hash).1 ∧
    (validateHash m (validateHash m b hash).2 hash).2 = (validateHash m b hash).2 ∧
    (validateHash jsonMarshal b hash).2.Hash = blockDigest b ∧
    blockDigest (validateHash jsonMarshal b hash).2 = blockDigest b := by
  have hsnd : (validateHash m (validateHash m b hash).2 hash).2 = (validateHash m b hash).2 := by
    rw [validateHash_snd, validateHash_snd, generateHash_idem]
  refine ⟨?_, hsnd, ?_, ?_⟩
  · rw [validateHash_snd m b hash]
    have h1 := validateHash_fst m (generateHash m b) hash
    have h2 := validateHash_fst m b hash
    rw [generateHash_idem] at h1
    exact Bool.eq_iff_iff.mpr (h1.trans h2.symm)
  · rw [validateHash_snd, generateHash_jsonMarshal]
  · rw [validateHash_snd, generateHash_jsonMarshal]
    rfl

end GoBlockchain
